import Mathlib

/-!
Shallow embedding of `src/smallsh.c`, a small interactive shell with the
built-ins `cd`, `exit`, `status`, input/output redirection and background
execution.

Modelling conventions:
* C strings are `List Char`; the C `int` type is `Int`.
* The glibc wait-status macros operate on the low bits of a two's-complement
  `int`; `x & 0x7f` is modelled as `x % 128` (`Int.emod` is non-negative for a
  positive modulus, matching the two's-complement bit pattern), `x & 0xff` as
  `x % 256`, and `(x & 0xff00) >> 8` as `x % 65536 / 256`.
* The blocking `waitpid` loop of `shell_launch` is modelled over an explicit
  list of delivered wait statuses.
* The `open` system call is modelled as an oracle mapping an open request
  (path and flags) to `some` file descriptor or `none` on failure.
-/

/-- Tokens produced by `strtok` are C strings, modelled as `List Char`. -/
abbrev Tok : Type := List Char

/-! ## Wait-status decoding (glibc macros used by smallsh.c) -/

/-- glibc `WIFEXITED(s)`: the low seven bits of the wait status are zero. -/
def wifexited (s : Int) : Bool := s % 128 == 0

/-- glibc `WIFSIGNALED(s)`: `((signed char)(((s & 0x7f) + 1) >> 1)) > 0`,
which holds exactly when the low seven bits are strictly between 0 and 127. -/
def wifsignaled (s : Int) : Bool := decide (0 < s % 128) && decide (s % 128 < 127)

/-- glibc `WIFSTOPPED(s)`: the low eight bits are `0x7f`. -/
def wifstopped (s : Int) : Bool := s % 256 == 127

/-- glibc `WTERMSIG(s)`: the low seven bits of the wait status. -/
def wtermsig (s : Int) : Int := s % 128

/-- glibc `WEXITSTATUS(s)`: bits 8..15 of the wait status. -/
def wexitstatus (s : Int) : Int := s % 65536 / 256

/-- smallsh.c line 54: `int status = -5;` — the sentinel initial value of the
global Last Exit Status variable. -/
def statusInit : Int := -5

/-- The `do ... while (shell_active)` loop of `shell_loop` keeps running
exactly when the value returned by `shell_execute` is non-zero. -/
def shell_loop_continues (shell_active : Int) : Bool := shell_active != 0

/-! ## The `status` built-in (smallsh.c lines 140-153) -/

/-- What a single run of the `status` built-in prints. -/
inductive StatusReport
  | exitValue (n : Int)
  | terminatedBySignal (n : Int)
  | noReport
  deriving DecidableEq

/-- smallsh.c `shell_status`: prints `exit value N` when `WIFEXITED`, else
`terminated by signal N` (with `N = WTERMSIG`) when `WIFSIGNALED`, else
nothing. -/
def shell_status_report (status : Int) : StatusReport :=
  if wifexited status then StatusReport.exitValue (wexitstatus status)
  else if wifsignaled status then StatusReport.terminatedBySignal (wtermsig status)
  else StatusReport.noReport

/-- smallsh.c line 152: `shell_status` always returns 1. -/
def shell_status_ret : Int := 1

/-! ## The foreground wait loop and the parent side of `shell_launch`
(smallsh.c lines 382-413) -/

/-- The condition ending the `do { waitpid } while` loop at line 395. -/
def exitedOrSignaled (s : Int) : Bool := wifexited s || wifsignaled s

/-- smallsh.c lines 393-395: repeatedly `waitpid(pid, &status, WUNTRACED)`
until the stored status satisfies `WIFEXITED || WIFSIGNALED`.  The statuses
delivered by successive `waitpid` calls are given as a list; `st` is the value
of the global `status` before the loop. -/
def waitLoop : Int → List Int → Int
  | st, [] => st
  | _, s :: rest => if exitedOrSignaled s then s else waitLoop s rest

/-- Observable effects of the parent branch of `shell_launch`. -/
structure LaunchParentResult where
  numBGProcesses : Nat
  status : Int
  /-- Index written by `bgTracker[numBGProcesses++] = pid` (background only). -/
  bgWriteIndex : Option Nat
  /-- The `printf("terminated by signal %d\n", status)` at line 399: the
  message text together with the integer actually passed to `%d`. -/
  fgSignalReport : Option (String × Int)
  ret : Int
  deriving DecidableEq

/-- smallsh.c lines 382-412, parent process: background children are recorded
in `bgTracker` at index `numBGProcesses` (no bounds check) and the counter is
incremented; foreground children are waited for with `waitLoop`, the final
status is stored in the global `status`, and — if it satisfies `WIFSIGNALED` —
the *raw status value* is printed after `terminated by signal`.  The function
returns 1 in every case (line 412). -/
def shell_launch_parent (isBackground : Bool) (numBG : Nat) (waits : List Int)
    (status0 : Int) : LaunchParentResult :=
  if isBackground then
    { numBGProcesses := numBG + 1, status := status0, bgWriteIndex := some numBG,
      fgSignalReport := none, ret := 1 }
  else
    { numBGProcesses := numBG, status := waitLoop status0 waits, bgWriteIndex := none,
      fgSignalReport :=
        if wifsignaled (waitLoop status0 waits) then
          some ("terminated by signal", waitLoop status0 waits)
        else none,
      ret := 1 }

/-! ## The background process registry (smallsh.c lines 50-51, 388) -/

/-- smallsh.c line 50: `pid_t bgTracker[250]` — the registry capacity. -/
def bgTrackerCapacity : Nat := 250

/-- Reachable values of the global `numBGProcesses` counter across a session:
it starts at 0 and is changed only by `shell_launch`'s parent branch (there is
no code path that ever decrements or resets it). -/
inductive ReachableBGCount : Nat → Prop
  | init : ReachableBGCount 0
  | step (isBg : Bool) (n : Nat) (waits : List Int) (st : Int) :
      ReachableBGCount n →
      ReachableBGCount (shell_launch_parent isBg n waits st).numBGProcesses

/-! ## Tokenization and directive extraction (smallsh.c lines 211-291) -/

/-- The delimiter set `" \t\r\n\a"` of `TOK_DELIM`. -/
def isDelim (c : Char) : Bool :=
  c = ' ' || c = '\t' || c = '\r' || c = '\n' || c = Char.ofNat 7

/-- Accumulating worker for `tokenize`; `cur` holds the current word reversed. -/
def tokenizeAux : List Char → List Char → List Tok
  | [], cur => if cur = [] then [] else [cur.reverse]
  | c :: rest, cur =>
    if isDelim c then
      if cur = [] then tokenizeAux rest []
      else cur.reverse :: tokenizeAux rest []
    else tokenizeAux rest (c :: cur)

/-- `strtok` with delimiters `TOK_DELIM`: the maximal runs of non-delimiter
characters, in order. -/
def tokenize (line : List Char) : List Tok := tokenizeAux line []

/-- The token `">"`. -/
def gtTok : Tok := ['>']

/-- The token `"<"`. -/
def ltTok : Tok := ['<']

/-- The token `"&"`. -/
def ampTok : Tok := ['&']

/-- The global parsing state touched by `shell_loop` / `shell_split_line`:
the token array being built plus the globals `in`, `out`, `inputFile`,
`outputFile`, `isBackground`.  A `none` file name models a NULL pointer. -/
structure ParseState where
  argv : List Tok
  inFlag : Bool
  outFlag : Bool
  inputFile : Option Tok
  outputFile : Option Tok
  isBackground : Bool
  deriving DecidableEq

/-- The token-processing `while` loop of `shell_split_line` (lines 230-271):
`>` and `<` consume the following token as a file name (leaving a NULL name
when there is none) and set the corresponding flag; every other token is
appended to the argument vector. -/
def tokLoop : List Tok → ParseState → ParseState
  | [], s => s
  | t :: rest, s =>
    if t = gtTok then
      match rest with
      | [] => { s with outFlag := true, outputFile := none }
      | f :: rest' => tokLoop rest' { s with outFlag := true, outputFile := some f }
    else if t = ltTok then
      match rest with
      | [] => { s with inFlag := true, inputFile := none }
      | f :: rest' => tokLoop rest' { s with inFlag := true, inputFile := some f }
    else tokLoop rest { s with argv := s.argv ++ [t] }

/-- Lines 275-288 of `shell_split_line`: when the last stored token is `&` it
is removed from the argument vector, and `isBackground` is set to 1 only when
`backgroundAllowed` holds (it was reset to 0 at the start of the call). -/
def ampStrip (backgroundAllowed : Bool) (s : ParseState) : ParseState :=
  if s.argv.getLast? = some ampTok then
    { s with argv := s.argv.dropLast, isBackground := backgroundAllowed }
  else s

/-- State at the start of a `shell_split_line` call: a fresh token array and
`isBackground = 0` (line 219); every other global keeps its previous value. -/
def splitInit (s : ParseState) : ParseState := { s with argv := [], isBackground := false }

/-- smallsh.c `shell_split_line`, as a transformation of the global parsing
state for one input line under the current Background-Allowed Mode. -/
def shell_split_line (backgroundAllowed : Bool) (s : ParseState) (line : List Char) :
    ParseState :=
  ampStrip backgroundAllowed (tokLoop (tokenize line) (splitInit s))

/-- smallsh.c lines 166-167: at the top of every `shell_loop` iteration the
flags `in` and `out` are reset to 0 (the file-name pointers are not). -/
def loopReset (s : ParseState) : ParseState := { s with inFlag := false, outFlag := false }

/-- One `shell_loop` iteration up to and including parsing: reset the
redirection flags, then split the newly read line. -/
def shell_loop_parse (backgroundAllowed : Bool) (s : ParseState) (line : List Char) :
    ParseState :=
  shell_split_line backgroundAllowed (loopReset s) line

/-- The input directive in effect after parsing: `some` file name (possibly
NULL) when the `in` flag is set, `none` when no redirection is active. -/
def effInput (s : ParseState) : Option (Option Tok) :=
  if s.inFlag then some s.inputFile else none

/-- The output directive in effect after parsing. -/
def effOutput (s : ParseState) : Option (Option Tok) :=
  if s.outFlag then some s.outputFile else none

/-- The parsing state at shell start-up: empty argument vector, no flags set,
NULL file-name pointers. -/
def cleanState : ParseState := ⟨[], false, false, none, none, false⟩

/-- Two parsing states that are indistinguishable to the rest of the shell:
same argument vector, same flags and background flag, and the same file names
whenever the corresponding flag is set (a stale file-name pointer behind a
cleared flag is never read). -/
def DirAgree (s t : ParseState) : Prop :=
  s.argv = t.argv ∧ s.inFlag = t.inFlag ∧ s.outFlag = t.outFlag ∧
    (s.inFlag = true → s.inputFile = t.inputFile) ∧
    (s.outFlag = true → s.outputFile = t.outputFile) ∧
    s.isBackground = t.isBackground

/-! ## Dispatch (smallsh.c lines 81-98, 294-313) -/

/-- smallsh.c lines 81-85: the `builtin_str` table. -/
def builtin_str : List Tok := ["cd".toList, "exit".toList, "status".toList]

/-- The `for` loop of `shell_execute` (lines 304-309): the first index whose
table entry compares equal to the first token. -/
def findBuiltin : List Tok → Nat → Tok → Option Nat
  | [], _, _ => none
  | b :: bs, i, a0 => if a0 = b then some i else findBuiltin bs (i + 1) a0

/-- What `shell_execute` decides to do with a parsed argument vector. -/
inductive DispatchAction
  | noop
  | builtin (idx : Nat)
  | launch
  deriving DecidableEq

/-- smallsh.c `shell_execute`: return silently when `args[0]` is NULL or
contains `'#'` (`strchr`), else call the built-in whose name equals the first
token, else `shell_launch`. -/
def shell_execute_action (args : List Tok) : DispatchAction :=
  match args with
  | [] => DispatchAction.noop
  | a0 :: _ =>
    if '#' ∈ a0 then DispatchAction.noop
    else
      match findBuiltin builtin_str 0 a0 with
      | some i => DispatchAction.builtin i
      | none => DispatchAction.launch

/-- Return values of the built-ins: `cd` returns 1, `exit` returns 0,
`status` returns 1. -/
def shell_builtin_ret : Nat → Int
  | 1 => 0
  | _ => 1

/-- The value `shell_execute` hands back to `shell_loop`: 1 for a no-op line,
the built-in's return value for a built-in, and `shell_launch`'s unconditional
1 otherwise. -/
def shell_execute_ret (args : List Tok) : Int :=
  match shell_execute_action args with
  | DispatchAction.noop => 1
  | DispatchAction.builtin i => shell_builtin_ret i
  | DispatchAction.launch => 1

/-! ## `$$` expansion (smallsh.c lines 184-207) -/

/-- Offset of the first occurrence of `"$$"` in a character list, if any
(models `strstr(p, "$$") - p`). -/
def findDD : List Char → Option Nat
  | [] => none
  | [_] => none
  | c :: d :: rest =>
    if c = '$' ∧ d = '$' then some 0 else (findDD (d :: rest)).map (· + 1)

/-- Number of occurrences of `"$$"` in a left-to-right non-overlapping scan. -/
def countDD : List Char → Nat
  | [] => 0
  | [_] => 0
  | c :: d :: rest =>
    if c = '$' ∧ d = '$' then countDD rest + 1 else countDD (d :: rest)

/-- The `while((p=strstr(p, "$$")))` loop of `shell_read_line`: find the next
`"$$"` at or after scan position `start`, splice `pid` in its place, and
resume scanning one character past the start of the replacement (`p++`).
`fuel` bounds the number of iterations. -/
def expandLoop (pid : List Char) : Nat → List Char → Nat → List Char
  | 0, line, _ => line
  | fuel + 1, line, start =>
    match findDD (line.drop start) with
    | none => line
    | some k =>
        expandLoop pid fuel
          (line.take (start + k) ++ pid ++ line.drop (start + k + 2))
          (start + k + 1)

/-- The expansion performed by `shell_read_line` on the raw input line, with
`pid` the decimal string of the shell's process id.  `line.length` iterations
are always enough, since each one consumes a distinct `"$$"` occurrence. -/
def shell_read_line_expand (pid line : List Char) : List Char :=
  expandLoop pid line.length line 0

/-- Modelled from the spec's words for the refinement claim about expansion:
every occurrence of the two-character marker, scanning left to right and
advancing past each replacement, is replaced by `pid`; everything else is
kept unchanged. -/
def specReplaceDD (pid : List Char) : List Char → List Char
  | [] => []
  | [c] => [c]
  | c :: d :: rest =>
    if c = '$' ∧ d = '$' then pid ++ specReplaceDD pid rest
    else c :: specReplaceDD pid (d :: rest)

/-- A character list free of the marker character (a decimal pid string is). -/
def noDollar (l : List Char) : Prop := ∀ c ∈ l, c ≠ '$'

/-! ## Child-side redirection setup (smallsh.c lines 325-377) -/

/-- Flags passed to `open` by the child. -/
inductive OpenFlags
  | rdonly
  | wronlyCreatTrunc (mode : Nat)
  deriving DecidableEq

/-- One `open` request issued by the child (`none` path models NULL). -/
structure OpenCall where
  path : Option Tok
  flags : OpenFlags
  deriving DecidableEq

/-- Outcome of the child-side setup code before `execvp`. -/
inductive ChildSetupResult
  | fail (perrorMsg : String) (exitCode : Int)
  | ready (stdinFD stdoutFD : Option Nat) (argv : List Tok)
  deriving DecidableEq

/-- The path `"/dev/null"`. -/
def devNull : Tok := "/dev/null".toList

/-- Step 4 (lines 365-371): a background command without an output directive
gets its standard output redirected to `/dev/null`. -/
def childBgOutput (cfg : ParseState) (openSys : OpenCall → Option Nat)
    (sin sout : Option Nat) : ChildSetupResult :=
  if cfg.isBackground && !cfg.outFlag then
    match openSys ⟨some devNull, OpenFlags.wronlyCreatTrunc 420⟩ with
    | none => ChildSetupResult.fail "output file open()" 1
    | some fd => ChildSetupResult.ready sin (some fd) cfg.argv
  else ChildSetupResult.ready sin sout cfg.argv

/-- Step 3 (lines 358-363): a background command without an input directive
gets its standard input redirected from `/dev/null`. -/
def childBgInput (cfg : ParseState) (openSys : OpenCall → Option Nat)
    (sin sout : Option Nat) : ChildSetupResult :=
  if cfg.isBackground && !cfg.inFlag then
    match openSys ⟨some devNull, OpenFlags.rdonly⟩ with
    | none => ChildSetupResult.fail "input file open()" 1
    | some fd => childBgOutput cfg openSys (some fd) sout
  else childBgOutput cfg openSys sin sout

/-- Step 2 (lines 348-354): the output directive is opened write-only,
create-if-absent, truncating, with mode 0644 (decimal 420); on failure the
child reports via `perror("output file open()")` and calls `exit(1)`. -/
def childOutput (cfg : ParseState) (openSys : OpenCall → Option Nat)
    (sin : Option Nat) : ChildSetupResult :=
  if cfg.outFlag then
    match openSys ⟨cfg.outputFile, OpenFlags.wronlyCreatTrunc 420⟩ with
    | none => ChildSetupResult.fail "output file open()" 1
    | some fd => childBgInput cfg openSys sin (some fd)
  else childBgInput cfg openSys sin none

/-- Step 1 (lines 339-345) and the rest of the child's redirection protocol:
the input directive is opened read-only; on failure the child reports via
`perror("input file open()")` and calls `exit(1)`. -/
def shell_launch_child (cfg : ParseState) (openSys : OpenCall → Option Nat) :
    ChildSetupResult :=
  if cfg.inFlag then
    match openSys ⟨cfg.inputFile, OpenFlags.rdonly⟩ with
    | none => ChildSetupResult.fail "input file open()" 1
    | some fd => childOutput cfg openSys (some fd)
  else childOutput cfg openSys none

/-! ## The SIGTSTP handler (smallsh.c lines 448-465) -/

/-- The 52-character message written when entering foreground-only mode. -/
def enteringMsg : String := "\nEntering foreground-only mode (& is now ignored)\n: "

/-- The 32-character message written when leaving foreground-only mode. -/
def exitingMsg : String := "\nExiting foreground-only mode\n: "

/-- smallsh.c `catchSIGTSTP`: when `backgroundAllowed == 1`, write 52 bytes of
the entering message and set the flag to 0; when it is 0, write 32 bytes of
the exiting message and set it to 1.  Returns the new flag value and the bytes
written. -/
def catchSIGTSTP (backgroundAllowed : Int) : Int × List Char :=
  if backgroundAllowed = 1 then (0, enteringMsg.toList.take 52)
  else if backgroundAllowed = 0 then (1, exitingMsg.toList.take 32)
  else (backgroundAllowed, [])

/-! ## Helper lemmas -/

theorem reachableBG_all (n : Nat) : ReachableBGCount n := by
  induction n with
  | zero => exact ReachableBGCount.init
  | succ k ih =>
      have h := ReachableBGCount.step true k [] 0 ih
      simpa [shell_launch_parent] using h

/-! ## Claim theorems -/

/-- C1: the claim says that for every foreground child terminated by a signal
the shell prints `terminated by signal <N>` with `N` the terminating signal
number (`WTERMSIG`).  The code at smallsh.c line 399 passes the *raw wait
status* to `%d` instead of `WTERMSIG(status)`; on the wait status 139
(signal 11 with the core-dump bit 0x80 set) it prints 139 while the
terminating signal number is 11. -/
theorem C1_fg_report_prints_raw_status :
    (shell_launch_parent false 0 [139] statusInit).fgSignalReport =
      some ("terminated by signal", 139) ∧
    wifsignaled 139 = true ∧ wtermsig 139 = 11 ∧ (139 : Int) ≠ 11 := by
  decide

/-- C3: the claim says every reachable session state tracks at most 250
background processes and every append lands inside the 250-entry `bgTracker`
array.  The code increments `numBGProcesses` without any bound check
(line 388), so the state reached after 250 background launches is still
reachable for one more launch: that launch writes at index 250, outside the
array, and leaves the counter at 251 > 250. -/
theorem C3_registry_append_overflows :
    ReachableBGCount (bgTrackerCapacity + 1) ∧
    ¬ (bgTrackerCapacity + 1 ≤ bgTrackerCapacity) ∧
    ReachableBGCount bgTrackerCapacity ∧
    (shell_launch_parent true bgTrackerCapacity [] 0).bgWriteIndex =
      some bgTrackerCapacity ∧
    ¬ (bgTrackerCapacity < bgTrackerCapacity) := by
  exact ⟨reachableBG_all _, by simp, reachableBG_all _,
    by simp [shell_launch_parent], by simp⟩

/-- C9: each SIGTSTP delivery flips Background-Allowed Mode, writing exactly
the 52-byte entering message on the transition 1 → 0 and exactly the 32-byte
exiting message on 0 → 1; the flag stays in \x7b0, 1\x7d and two deliveries
restore the original value. -/
theorem C9_sigtstp_toggle (bg : Int) (h : bg = 0 ∨ bg = 1) :
    ((catchSIGTSTP bg).1 = 0 ∨ (catchSIGTSTP bg).1 = 1) ∧
    (catchSIGTSTP (catchSIGTSTP bg).1).1 = bg ∧
    (bg = 1 → (catchSIGTSTP bg).1 = 0 ∧ (catchSIGTSTP bg).2 = enteringMsg.toList ∧
      (catchSIGTSTP bg).2.length = 52) ∧
    (bg = 0 → (catchSIGTSTP bg).1 = 1 ∧ (catchSIGTSTP bg).2 = exitingMsg.toList ∧
      (catchSIGTSTP bg).2.length = 32) := by
  rcases h with h | h <;> subst h <;> decide

/-- Witness for C9 at the initial mode value `backgroundAllowed = 1`. -/
theorem C9_sigtstp_toggle_witness :
    ((1 : Int) = 0 ∨ (1 : Int) = 1) ∧
    (((catchSIGTSTP 1).1 = 0 ∨ (catchSIGTSTP 1).1 = 1) ∧
     (catchSIGTSTP (catchSIGTSTP 1).1).1 = 1 ∧
     ((1 : Int) = 1 → (catchSIGTSTP 1).1 = 0 ∧ (catchSIGTSTP 1).2 = enteringMsg.toList ∧
       (catchSIGTSTP 1).2.length = 52) ∧
     ((1 : Int) = 0 → (catchSIGTSTP 1).1 = 1 ∧ (catchSIGTSTP 1).2 = exitingMsg.toList ∧
       (catchSIGTSTP 1).2.length = 32)) :=
  ⟨Or.inr rfl, C9_sigtstp_toggle 1 (Or.inr rfl)⟩

/-- C10: with the sentinel initial value `status = -5`, the wait-status
macros classify the value as a signal termination (low seven bits 123), so
the `status` built-in prints `terminated by signal 123`, never an
`exit value` line, returns 1 and the loop continues. -/
theorem C10_initial_status_decodes_as_signal :
    shell_status_report statusInit = StatusReport.terminatedBySignal 123 ∧
    wifexited statusInit = false ∧ wifsignaled statusInit = true ∧
    wtermsig statusInit = 123 ∧
    (¬ ∃ n, shell_status_report statusInit = StatusReport.exitValue n) ∧
    shell_status_ret = 1 ∧ shell_loop_continues shell_status_ret = true := by
  refine ⟨by decide, by decide, by decide, by decide, ?_, by decide, by decide⟩
  rintro ⟨n, h⟩
  rw [show shell_status_report statusInit = StatusReport.terminatedBySignal 123 from
    by decide] at h
  exact StatusReport.noConfusion h

theorem waitLoop_find (st : Int) (l : List Int) (s : Int)
    (h : l.find? exitedOrSignaled = some s) : waitLoop st l = s := by
  induction l generalizing st with
  | nil => simp at h
  | cons a t ih =>
      by_cases ha : exitedOrSignaled a = true
      · rw [List.find?_cons_of_pos t ha] at h
        simp only [Option.some.injEq] at h
        subst h
        simp [waitLoop, ha]
      · rw [List.find?_cons_of_neg t ha] at h
        simp [waitLoop, ha]
        exact ih a h

theorem exitedOrSignaled_not_stopped (s : Int) (h : exitedOrSignaled s = true) :
    wifstopped s = false := by
  have h128 : s % 256 % 128 = s % 128 := Int.emod_emod_of_dvd s (by norm_num)
  simp only [exitedOrSignaled, wifexited, wifsignaled, Bool.or_eq_true, beq_iff_eq,
    Bool.and_eq_true, decide_eq_true_eq] at h
  simp only [wifstopped, beq_eq_false_iff_ne, ne_eq]
  intro hc
  rw [hc] at h128
  omega

/-- C7: the foreground wait loop ends only on a wait status satisfying
exited-or-signaled: for every sequence of delivered statuses, the status
recorded as Last Exit Status is the first exited-or-signaled one, it
satisfies the predicate, and it is never a stop/suspend status. -/
theorem C7_wait_loop_skips_stops (numBG : Nat) (st0 : Int) (waits : List Int) (s : Int)
    (h : waits.find? exitedOrSignaled = some s) :
    (shell_launch_parent false numBG waits st0).status = s ∧
    exitedOrSignaled s = true ∧ wifstopped s = false := by
  have hs : exitedOrSignaled s = true := List.find?_some h
  exact ⟨by simp [shell_launch_parent, waitLoop_find st0 waits s h], hs,
    exitedOrSignaled_not_stopped s hs⟩

/-- Witness for C7: a child first stopped by SIGTSTP (wait status 0x147f =
5247), then killed by signal 9; the recorded status is 9. -/
theorem C7_wait_loop_skips_stops_witness :
    ([5247, 9] : List Int).find? exitedOrSignaled = some 9 ∧
    ((shell_launch_parent false 0 [5247, 9] statusInit).status = 9 ∧
     exitedOrSignaled 9 = true ∧ wifstopped 9 = false) :=
  ⟨by decide, C7_wait_loop_skips_stops 0 statusInit [5247, 9] 9 (by decide)⟩

/-- C8: when the child cannot open the input redirection file (read-only) or
the output redirection file (write-only, create, truncate, mode 0644), it
fails with the corresponding `perror` tag and exit status 1, while the parent
side of `shell_launch` still returns 1 and the interactive loop continues. -/
theorem C8_redirection_open_failure (cfg : ParseState) (openSys : OpenCall → Option Nat)
    (numBG : Nat) (waits : List Int) (st0 : Int)
    (h : (cfg.inFlag = true ∧ openSys ⟨cfg.inputFile, OpenFlags.rdonly⟩ = none) ∨
         (cfg.outFlag = true ∧
          (cfg.inFlag = true → openSys ⟨cfg.inputFile, OpenFlags.rdonly⟩ ≠ none) ∧
          openSys ⟨cfg.outputFile, OpenFlags.wronlyCreatTrunc 420⟩ = none)) :
    (∃ m, (m = "input file open()" ∨ m = "output file open()") ∧
       shell_launch_child cfg openSys = ChildSetupResult.fail m 1) ∧
    (shell_launch_parent cfg.isBackground numBG waits st0).ret = 1 ∧
    shell_loop_continues (shell_launch_parent cfg.isBackground numBG waits st0).ret
      = true := by
  refine ⟨?_, ?_, ?_⟩
  · rcases h with ⟨hin, hopen⟩ | ⟨hout, hinok, hopen⟩
    · exact ⟨"input file open()", Or.inl rfl, by simp [shell_launch_child, hin, hopen]⟩
    · refine ⟨"output file open()", Or.inr rfl, ?_⟩
      cases hin : cfg.inFlag with
      | false => simp [shell_launch_child, hin, childOutput, hout, hopen]
      | true =>
          obtain ⟨fd, hfd⟩ := Option.ne_none_iff_exists'.mp (hinok hin)
          simp [shell_launch_child, hin, hfd, childOutput, hout, hopen]
  · cases hb : cfg.isBackground <;> simp [shell_launch_parent]
  · cases hb : cfg.isBackground <;> simp [shell_launch_parent, shell_loop_continues]

/-- Witness for C8: a foreground `cat < nofile` against a system where every
`open` fails. -/
theorem C8_redirection_open_failure_witness :
    ((⟨["cat".toList], true, false, some "nofile".toList, none, false⟩ :
        ParseState).inFlag = true ∧
      (fun (_ : OpenCall) => (none : Option Nat))
        ⟨(⟨["cat".toList], true, false, some "nofile".toList, none, false⟩ :
            ParseState).inputFile, OpenFlags.rdonly⟩ = none) ∧
    ((∃ m, (m = "input file open()" ∨ m = "output file open()") ∧
       shell_launch_child ⟨["cat".toList], true, false, some "nofile".toList, none, false⟩
         (fun _ => none) = ChildSetupResult.fail m 1) ∧
     (shell_launch_parent false 0 [] statusInit).ret = 1 ∧
     shell_loop_continues (shell_launch_parent false 0 [] statusInit).ret = true) :=
  ⟨⟨rfl, rfl⟩,
   C8_redirection_open_failure ⟨["cat".toList], true, false, some "nofile".toList, none, false⟩
     (fun _ => none) 0 [] statusInit (Or.inl ⟨rfl, rfl⟩)⟩

theorem findBuiltin_eq_none (bs : List Tok) (a0 : Tok) (h : a0 ∉ bs) :
    ∀ i, findBuiltin bs i a0 = none := by
  induction bs with
  | nil => intro i; rfl
  | cons b t ih =>
      intro i
      have hb : a0 ≠ b := by intro hc; exact h (hc ▸ List.mem_cons_self b t)
      have ht : a0 ∉ t := fun hc => h (List.mem_cons_of_mem b hc)
      simp [findBuiltin, hb, ih ht]

theorem findBuiltin_of_mem (bs : List Tok) (a0 : Tok) (h : a0 ∈ bs) :
    ∀ i, ∃ j, findBuiltin bs i a0 = some (i + j) ∧ bs[j]? = some a0 := by
  induction bs with
  | nil => simp at h
  | cons b t ih =>
      intro i
      by_cases hb : a0 = b
      · exact ⟨0, by simp [findBuiltin, hb], by simp [hb]⟩
      · have ht : a0 ∈ t := by
          rcases List.mem_cons.mp h with hc | hc
          · exact absurd hc hb
          · exact hc
        obtain ⟨j, hj1, hj2⟩ := ih ht (i + 1)
        refine ⟨j + 1, ?_, by simpa using hj2⟩
        simp [findBuiltin, hb, hj1]
        omega

/-- C2 counterexample: the claim says dispatch is a silent no-op exactly when
the argument vector is empty or the first token *starts with* `#`.  The code
(smallsh.c line 297) uses `strchr`, so the vector `["x#"]` — whose first token
contains but does not start with `#` — is treated as a no-op, refuting the
stated equivalence. -/
theorem C2_dispatch_counterexample :
    ¬ (shell_execute_action ["x#".toList] = DispatchAction.noop ↔
       (["x#".toList] = ([] : List Tok) ∨ ("x#".toList).head? = some '#')) := by
  decide

/-- C2 amended: dispatch is a silent no-op (returning success 1) exactly when
the argument vector is empty or the first token *contains* `#` anywhere;
every other vector is dispatched to the built-in whose table entry equals the
first token exactly, and otherwise to the external launcher. -/
theorem C2_amended_dispatch (args : List Tok) (a0 : Tok) (rest : List Tok) :
    (shell_execute_action args = DispatchAction.noop ↔
      (args = [] ∨ '#' ∈ args.headD [])) ∧
    (shell_execute_action args = DispatchAction.noop → shell_execute_ret args = 1) ∧
    (args = a0 :: rest → '#' ∉ a0 →
      ((a0 ∈ builtin_str → ∃ i, shell_execute_action args = DispatchAction.builtin i ∧
          builtin_str[i]? = some a0) ∧
       (a0 ∉ builtin_str → shell_execute_action args = DispatchAction.launch))) := by
  refine ⟨?_, ?_, ?_⟩
  · cases args with
    | nil => simp [shell_execute_action]
    | cons b bs =>
        by_cases hb : '#' ∈ b
        · simp [shell_execute_action, hb]
        · simp only [shell_execute_action, if_neg hb, List.headD_cons]
          cases hf : findBuiltin builtin_str 0 b <;> simp [hb]
  · intro h
    simp [shell_execute_ret, h]
  · rintro rfl hsharp
    constructor
    · intro hmem
      obtain ⟨j, hj1, hj2⟩ := findBuiltin_of_mem builtin_str a0 hmem 0
      exact ⟨j, by simp [shell_execute_action, hsharp, hj1], by simpa using hj2⟩
    · intro hmem
      simp [shell_execute_action, hsharp, findBuiltin_eq_none builtin_str a0 hmem 0]

/-- Witness for C2 at the vector `["status"]`: not a no-op, dispatched to the
built-in at table index 2. -/
theorem C2_amended_dispatch_witness :
    (shell_execute_action ["status".toList] = DispatchAction.noop ↔
      ((["status".toList] : List Tok) = [] ∨
        '#' ∈ (["status".toList] : List Tok).headD [])) ∧
    (∃ i, shell_execute_action ["status".toList] = DispatchAction.builtin i ∧
      builtin_str[i]? = some "status".toList) :=
  ⟨(C2_amended_dispatch ["status".toList] "status".toList []).1,
   ((C2_amended_dispatch ["status".toList] "status".toList []).2.2 rfl
     (by decide)).1 (by decide)⟩

theorem tokLoop_gt_cons (f : Tok) (rest' : List Tok) (s : ParseState) :
    tokLoop (gtTok :: f :: rest') s =
      tokLoop rest' { s with outFlag := true, outputFile := some f } := rfl

theorem tokLoop_lt_cons (f : Tok) (rest' : List Tok) (s : ParseState) :
    tokLoop (ltTok :: f :: rest') s =
      tokLoop rest' { s with inFlag := true, inputFile := some f } := rfl

theorem tokLoop_other (t : Tok) (rest : List Tok) (s : ParseState)
    (h1 : ¬ t = gtTok) (h2 : ¬ t = ltTok) :
    tokLoop (t :: rest) s = tokLoop rest { s with argv := s.argv ++ [t] } := by
  cases rest <;> simp [tokLoop, h1, h2]

theorem tokLoop_dirAgree (ts : List Tok) (s : ParseState) :
    ∀ t, DirAgree s t → DirAgree (tokLoop ts s) (tokLoop ts t) := by
  induction ts, s using tokLoop.induct with
  | case1 s => intro t h; exact h
  | case2 s =>
      intro t h
      obtain ⟨h1, h2, h3, h4, h5, h6⟩ := h
      exact ⟨h1, h2, rfl, h4, fun _ => rfl, h6⟩
  | case3 s f rest' ih =>
      intro t h
      obtain ⟨h1, h2, h3, h4, h5, h6⟩ := h
      rw [tokLoop_gt_cons, tokLoop_gt_cons]
      exact ih _ ⟨h1, h2, rfl, h4, fun _ => rfl, h6⟩
  | case4 s hne =>
      intro t h
      obtain ⟨h1, h2, h3, h4, h5, h6⟩ := h
      exact ⟨h1, rfl, h3, fun _ => rfl, h5, h6⟩
  | case5 s f rest' hne ih =>
      intro t h
      obtain ⟨h1, h2, h3, h4, h5, h6⟩ := h
      rw [tokLoop_lt_cons, tokLoop_lt_cons]
      exact ih _ ⟨h1, rfl, h3, fun _ => rfl, h5, h6⟩
  | case6 tk rest s hne1 hne2 ih =>
      intro t h
      obtain ⟨h1, h2, h3, h4, h5, h6⟩ := h
      rw [tokLoop_other tk rest s hne1 hne2, tokLoop_other tk rest t hne1 hne2]
      exact ih _ ⟨by rw [h1], h2, h3, h4, h5, h6⟩

theorem ampStrip_dirAgree (b : Bool) (s t : ParseState) (h : DirAgree s t) :
    DirAgree (ampStrip b s) (ampStrip b t) := by
  obtain ⟨h1, h2, h3, h4, h5, h6⟩ := h
  unfold ampStrip
  rw [h1]
  by_cases hc : t.argv.getLast? = some ampTok
  · rw [if_pos hc, if_pos hc]
    exact ⟨rfl, h2, h3, h4, h5, rfl⟩
  · rw [if_neg hc, if_neg hc]
    exact ⟨h1, h2, h3, h4, h5, h6⟩

theorem shell_loop_parse_agree (allowed : Bool) (s₁ s₂ : ParseState) (line : List Char) :
    DirAgree (shell_loop_parse allowed s₁ line) (shell_loop_parse allowed s₂ line) := by
  unfold shell_loop_parse shell_split_line
  apply ampStrip_dirAgree
  apply tokLoop_dirAgree
  exact ⟨rfl, rfl, rfl,
    fun h => by simp [splitInit, loopReset] at h,
    fun h => by simp [splitInit, loopReset] at h, rfl⟩

theorem dirAgree_effInput (s t : ParseState) (h : DirAgree s t) :
    effInput s = effInput t := by
  obtain ⟨h1, h2, h3, h4, h5, h6⟩ := h
  unfold effInput
  rw [← h2]
  cases hs : s.inFlag
  · simp [hs]
  · simp [hs, h4 hs]

theorem dirAgree_effOutput (s t : ParseState) (h : DirAgree s t) :
    effOutput s = effOutput t := by
  obtain ⟨h1, h2, h3, h4, h5, h6⟩ := h
  unfold effOutput
  rw [← h3]
  cases hs : s.outFlag
  · simp [hs]
  · simp [hs, h5 hs]

theorem ampStrip_inFlag (b : Bool) (s : ParseState) : (ampStrip b s).inFlag = s.inFlag := by
  unfold ampStrip; split <;> rfl

theorem ampStrip_outFlag (b : Bool) (s : ParseState) : (ampStrip b s).outFlag = s.outFlag := by
  unfold ampStrip; split <;> rfl

theorem shell_loop_parse_inFlag_eq (allowed : Bool) (s : ParseState) (line : List Char) :
    (shell_loop_parse allowed s line).inFlag =
      (tokLoop (tokenize line) (splitInit (loopReset cleanState))).inFlag := by
  have hA := shell_loop_parse_agree allowed s cleanState line
  rw [hA.2.1]
  unfold shell_loop_parse shell_split_line
  rw [ampStrip_inFlag]

theorem shell_loop_parse_outFlag_eq (allowed : Bool) (s : ParseState) (line : List Char) :
    (shell_loop_parse allowed s line).outFlag =
      (tokLoop (tokenize line) (splitInit (loopReset cleanState))).outFlag := by
  have hA := shell_loop_parse_agree allowed s cleanState line
  rw [hA.2.2.1]
  unfold shell_loop_parse shell_split_line
  rw [ampStrip_outFlag]

/-- C6: the directives in effect for a parsed command are a function of the
line alone — the `in`/`out` flags are reset at the top of every loop
iteration before the line is read and parsed, so directives set by an earlier
command are never in effect later.  In particular, after a command
`a < in.txt > out.txt`, parsing a following command `b` leaves no active
redirection. -/
theorem C6_directives_never_leak (s₁ s₂ : ParseState) (allowed : Bool) (line : List Char) :
    effInput (shell_loop_parse allowed s₁ line) = effInput (shell_loop_parse allowed s₂ line) ∧
    effOutput (shell_loop_parse allowed s₁ line) =
      effOutput (shell_loop_parse allowed s₂ line) ∧
    (shell_loop_parse allowed s₁ line).argv = (shell_loop_parse allowed s₂ line).argv ∧
    (shell_loop_parse allowed s₁ line).isBackground =
      (shell_loop_parse allowed s₂ line).isBackground ∧
    (shell_loop_parse allowed (shell_loop_parse allowed s₁ ("a < in.txt > out.txt".toList))
        ("b".toList)).inFlag = false ∧
    (shell_loop_parse allowed (shell_loop_parse allowed s₁ ("a < in.txt > out.txt".toList))
        ("b".toList)).outFlag = false := by
  have hA := shell_loop_parse_agree allowed s₁ s₂ line
  refine ⟨dirAgree_effInput _ _ hA, dirAgree_effOutput _ _ hA, hA.1, hA.2.2.2.2.2, ?_, ?_⟩
  · rw [shell_loop_parse_inFlag_eq]; decide
  · rw [shell_loop_parse_outFlag_eq]; decide

theorem getLast?_tail_ne (a : Tok) (l : List Tok) (x : Tok)
    (h : (a :: l).getLast? ≠ some x) : l.getLast? ≠ some x := by
  cases l with
  | nil => simp
  | cons b t => rwa [List.getLast?_cons_cons] at h

theorem tokLoop_isBackground (ts : List Tok) (s : ParseState) :
    (tokLoop ts s).isBackground = s.isBackground := by
  induction ts, s using tokLoop.induct with
  | case1 s => rfl
  | case2 s => rfl
  | case3 s f rest' ih => rw [tokLoop_gt_cons]; exact ih
  | case4 s hne => rfl
  | case5 s f rest' hne ih => rw [tokLoop_lt_cons]; exact ih
  | case6 tk rest s hne1 hne2 ih => rw [tokLoop_other tk rest s hne1 hne2]; exact ih

theorem tokLoop_append_amp (ts : List Tok) (s : ParseState) :
    ts.getLast? ≠ some gtTok → ts.getLast? ≠ some ltTok →
    tokLoop (ts ++ [ampTok]) s =
      { tokLoop ts s with argv := (tokLoop ts s).argv ++ [ampTok] } := by
  induction ts, s using tokLoop.induct with
  | case1 s => intro _ _; rfl
  | case2 s => intro hgt _; simp at hgt
  | case3 s f rest' ih =>
      intro hgt hlt
      rw [show (gtTok :: f :: rest') ++ [ampTok] = gtTok :: f :: (rest' ++ [ampTok]) from rfl,
        tokLoop_gt_cons, tokLoop_gt_cons]
      exact ih (getLast?_tail_ne _ _ _ (getLast?_tail_ne _ _ _ hgt))
        (getLast?_tail_ne _ _ _ (getLast?_tail_ne _ _ _ hlt))
  | case4 s hne =>
      intro _ hlt; simp at hlt
  | case5 s f rest' hne ih =>
      intro hgt hlt
      rw [show (ltTok :: f :: rest') ++ [ampTok] = ltTok :: f :: (rest' ++ [ampTok]) from rfl,
        tokLoop_lt_cons, tokLoop_lt_cons]
      exact ih (getLast?_tail_ne _ _ _ (getLast?_tail_ne _ _ _ hgt))
        (getLast?_tail_ne _ _ _ (getLast?_tail_ne _ _ _ hlt))
  | case6 tk rest s hne1 hne2 ih =>
      intro hgt hlt
      rw [show (tk :: rest) ++ [ampTok] = tk :: (rest ++ [ampTok]) from rfl,
        tokLoop_other tk (rest ++ [ampTok]) s hne1 hne2, tokLoop_other tk rest s hne1 hne2]
      exact ih (getLast?_tail_ne _ _ _ hgt) (getLast?_tail_ne _ _ _ hlt)

/-- C5 counterexample: the claim quantifies over *every* line ending in `&`.
For the line `a & &` with Background-Allowed Mode false, the trailing `&` is
stripped, leaving argument vector `[a, &]`; but tokenizing the same line
without the trailing `&` (`a &`) strips the now-final `&` as well, leaving
`[a]`. The two runs are distinguishable beyond the dropped token. -/
theorem C5_counterexample :
    (shell_split_line false cleanState ("a & &".toList)).argv = [['a'], ampTok] ∧
    (shell_split_line false cleanState ("a &".toList)).argv = [['a']] ∧
    (shell_split_line false cleanState ("a & &".toList)).argv ≠
      (shell_split_line false cleanState ("a &".toList)).argv := by
  decide

/-- C5 amended: when Background-Allowed Mode is false, a line whose token
sequence is `ts ++ [&]` parses exactly like a line whose token sequence is
`ts` — same argument vector, directives and (false) background flag —
provided the `&` is genuinely the last *produced* token: `ts` must not end in
a redirection operator (which would consume the `&` as a file name) and the
argument vector produced from `ts` must not itself end in `&` (which the
shorter run would strip as well). -/
theorem C5_amended_background_gating (s : ParseState) (ts : List Tok)
    (line line' : List Char)
    (hline : tokenize line = ts ++ [ampTok]) (hline' : tokenize line' = ts)
    (hgt : ts.getLast? ≠ some gtTok) (hlt : ts.getLast? ≠ some ltTok)
    (hamp : (tokLoop ts (splitInit (loopReset s))).argv.getLast? ≠ some ampTok) :
    shell_loop_parse false s line = shell_loop_parse false s line' ∧
    (shell_loop_parse false s line).isBackground = false := by
  unfold shell_loop_parse shell_split_line
  rw [hline, hline']
  rw [tokLoop_append_amp ts _ hgt hlt]
  have hbg : (tokLoop ts (splitInit (loopReset s))).isBackground = false := by
    rw [tokLoop_isBackground]; rfl
  have hstrip1 : ampStrip false
      { tokLoop ts (splitInit (loopReset s)) with
        argv := (tokLoop ts (splitInit (loopReset s))).argv ++ [ampTok] } =
      tokLoop ts (splitInit (loopReset s)) := by
    unfold ampStrip
    rw [if_pos (List.getLast?_concat _)]
    revert hbg
    obtain ⟨a, i, o, fi, fo, bg⟩ := tokLoop ts (splitInit (loopReset s))
    intro hbg
    simp at hbg
    subst hbg
    simp [List.dropLast_concat]
  have hstrip2 : ampStrip false (tokLoop ts (splitInit (loopReset s))) =
      tokLoop ts (splitInit (loopReset s)) := by
    unfold ampStrip
    rw [if_neg hamp]
  rw [hstrip1, hstrip2]
  exact ⟨rfl, hbg⟩

/-- Witness for C5: the line `echo hi &` against `echo hi` with background
mode disallowed. -/
theorem C5_amended_background_gating_witness :
    tokenize ("echo hi &".toList) = ["echo".toList, "hi".toList] ++ [ampTok] ∧
    tokenize ("echo hi".toList) = ["echo".toList, "hi".toList] ∧
    (shell_loop_parse false cleanState ("echo hi &".toList) =
       shell_loop_parse false cleanState ("echo hi".toList) ∧
     (shell_loop_parse false cleanState ("echo hi &".toList)).isBackground = false) :=
  ⟨by decide, by decide,
   C5_amended_background_gating cleanState ["echo".toList, "hi".toList]
     ("echo hi &".toList) ("echo hi".toList) (by decide) (by decide)
     (by decide) (by decide) (by decide)⟩

theorem noDollar_cons (a : Char) (A : List Char) (h : noDollar (a :: A)) :
    a ≠ '$' ∧ noDollar A :=
  ⟨h a (List.mem_cons_self a A), fun c hc => h c (List.mem_cons_of_mem a hc)⟩

theorem findDD_cons (c : Char) (l : List Char) :
    findDD (c :: l) =
      if c = '$' ∧ l.head? = some '$' then some 0 else (findDD l).map (· + 1) := by
  cases l with
  | nil => simp [findDD]
  | cons d t => simp [findDD]

theorem countDD_cons (c : Char) (l : List Char) :
    countDD (c :: l) =
      if c = '$' ∧ l.head? = some '$' then countDD l.tail + 1 else countDD l := by
  cases l with
  | nil => simp [countDD]
  | cons d t => simp [countDD]

theorem specReplaceDD_cons (pid : List Char) (c : Char) (l : List Char) :
    specReplaceDD pid (c :: l) =
      if c = '$' ∧ l.head? = some '$' then pid ++ specReplaceDD pid l.tail
      else c :: specReplaceDD pid l := by
  cases l with
  | nil => simp [specReplaceDD]
  | cons d t => simp [specReplaceDD]

theorem specReplaceDD_of_countDD_zero (pid l : List Char) :
    countDD l = 0 → specReplaceDD pid l = l := by
  induction l using countDD.induct with
  | case1 => intro _; rfl
  | case2 c => intro _; rfl
  | case3 c d rest hc =>
      obtain ⟨h1, h2⟩ := hc; subst h1; subst h2
      intro h; simp [countDD] at h
  | case4 c d rest hc ih =>
      intro h
      rw [countDD, if_neg hc] at h
      rw [specReplaceDD, if_neg hc, ih h]

theorem specReplaceDD_of_findDD_none (pid l : List Char) :
    findDD l = none → specReplaceDD pid l = l := by
  induction l using countDD.induct with
  | case1 => intro _; rfl
  | case2 c => intro _; rfl
  | case3 c d rest hc =>
      obtain ⟨h1, h2⟩ := hc; subst h1; subst h2
      intro h; simp [findDD] at h
  | case4 c d rest hc ih =>
      intro h
      rw [findDD, if_neg hc, Option.map_eq_none'] at h
      rw [specReplaceDD, if_neg hc, ih h]

theorem countDD_le_length (l : List Char) : countDD l ≤ l.length := by
  induction l using countDD.induct with
  | case1 => simp [countDD]
  | case2 c => simp [countDD]
  | case3 c d rest hc ih =>
      obtain ⟨h1, h2⟩ := hc; subst h1; subst h2
      rw [countDD, if_pos ⟨rfl, rfl⟩]
      simp only [List.length_cons]
      omega
  | case4 c d rest hc ih =>
      rw [countDD, if_neg hc]
      simp only [List.length_cons] at ih ⊢
      omega

theorem findDD_noDollar_append (A S : List Char) :
    noDollar A → findDD (A ++ S) = (findDD S).map (· + A.length) := by
  induction A with
  | nil =>
      intro _
      cases hf : findDD S <;> simp [hf]
  | cons a A ih =>
      intro h
      obtain ⟨ha, hA⟩ := noDollar_cons a A h
      rw [List.cons_append, findDD_cons, if_neg (by simp [ha]), ih hA]
      cases hf : findDD S <;> simp [Nat.add_assoc]

theorem countDD_noDollar_append (A S : List Char) :
    noDollar A → countDD (A ++ S) = countDD S := by
  induction A with
  | nil => intro _; rfl
  | cons a A ih =>
      intro h
      obtain ⟨ha, hA⟩ := noDollar_cons a A h
      rw [List.cons_append, countDD_cons, if_neg (by simp [ha]), ih hA]

theorem specReplaceDD_noDollar_append (pid A S : List Char) :
    noDollar A → specReplaceDD pid (A ++ S) = A ++ specReplaceDD pid S := by
  induction A with
  | nil => intro _; rfl
  | cons a A ih =>
      intro h
      obtain ⟨ha, hA⟩ := noDollar_cons a A h
      rw [List.cons_append, specReplaceDD_cons, if_neg (by simp [ha]), ih hA,
        List.cons_append]

theorem findDD_some_decomp (l : List Char) :
    ∀ k, findDD l = some k →
      ∃ B S, l = B ++ '$' :: '$' :: S ∧ B.length = k ∧
        (∀ pid, specReplaceDD pid l = B ++ pid ++ specReplaceDD pid S) ∧
        countDD l = countDD S + 1 := by
  induction l using countDD.induct with
  | case1 => intro k hk; simp [findDD] at hk
  | case2 c => intro k hk; simp [findDD] at hk
  | case3 c d rest hc =>
      obtain ⟨h1, h2⟩ := hc; subst h1; subst h2
      intro k hk
      rw [findDD, if_pos ⟨rfl, rfl⟩] at hk
      simp only [Option.some.injEq] at hk
      subst hk
      refine ⟨[], rest, rfl, rfl, ?_, ?_⟩
      · intro pid
        rw [specReplaceDD, if_pos ⟨rfl, rfl⟩]
        rfl
      · rw [countDD, if_pos ⟨rfl, rfl⟩]
  | case4 c d rest hc ih =>
      intro k hk
      rw [findDD, if_neg hc, Option.map_eq_some'] at hk
      obtain ⟨k', hk', hkk⟩ := hk
      obtain ⟨B, S, hBS, hBk, hspec, hcount⟩ := ih k' hk'
      refine ⟨c :: B, S, ?_, ?_, ?_, ?_⟩
      · rw [List.cons_append, ← hBS]
      · simp [hBk, ← hkk]
      · intro pid
        rw [specReplaceDD, if_neg hc, hspec pid]
        simp
      · rw [countDD, if_neg hc, hcount]

theorem expandLoop_succ (pid : List Char) (fuel : Nat) (line : List Char) (start : Nat) :
    expandLoop pid (fuel + 1) line start =
      match findDD (line.drop start) with
      | none => line
      | some k =>
          expandLoop pid fuel (line.take (start + k) ++ pid ++ line.drop (start + k + 2))
            (start + k + 1) := rfl

theorem expandLoop_spec (pid : List Char) (hnd : noDollar pid) (hne : pid ≠ []) :
    ∀ (fuel : Nat) (R P : List Char), countDD R ≤ fuel →
      expandLoop pid fuel (P ++ R) P.length = P ++ specReplaceDD pid R := by
  intro fuel
  induction fuel with
  | zero =>
      intro R P h
      have h0 : countDD R = 0 := Nat.le_zero.mp h
      rw [specReplaceDD_of_countDD_zero pid R h0]
      rfl
  | succ fuel ih =>
      intro R P h
      rw [expandLoop_succ, List.drop_left]
      cases hf : findDD R with
      | none =>
          show P ++ R = P ++ specReplaceDD pid R
          rw [specReplaceDD_of_findDD_none pid R hf]
      | some k =>
          show expandLoop pid fuel
              ((P ++ R).take (P.length + k) ++ pid ++ (P ++ R).drop (P.length + k + 2))
              (P.length + k + 1) = P ++ specReplaceDD pid R
          obtain ⟨B, S, hBS, hBk, hspec, hcount⟩ := findDD_some_decomp R k hf
          obtain ⟨q, pid', hq⟩ : ∃ q pid', pid = q :: pid' := by
            cases pid with
            | nil => exact absurd rfl hne
            | cons q p => exact ⟨q, p, rfl⟩
          have hnd' : noDollar pid' := by
            rw [hq] at hnd
            exact (noDollar_cons q pid' hnd).2
          subst hBS
          rw [← hBk]
          rw [List.take_append, List.take_left, Nat.add_assoc (List.length P),
            List.drop_append, List.drop_append]
          have hcS : countDD (pid' ++ S) ≤ fuel := by
            rw [countDD_noDollar_append pid' S hnd']
            omega
          have hmain := ih (pid' ++ S) (P ++ B ++ [q]) hcS
          rw [hspec pid, hq]
          rw [hq] at hmain
          rw [specReplaceDD_noDollar_append (q :: pid') pid' S hnd'] at hmain
          have hlen : (P ++ B ++ [q]).length = P.length + B.length + 1 := by
            simp
            omega
          rw [hlen] at hmain
          have hline : (P ++ B ++ [q]) ++ (pid' ++ S) =
              P ++ B ++ (q :: pid') ++ ('$' :: '$' :: S).drop 2 := by
            simp
          rw [hline] at hmain
          rw [hmain]
          simp

/-- C4: for every raw input line, the expansion performed by
`shell_read_line` replaces every occurrence of the two-character marker `$$`
— scanning left to right, advancing past each replacement so that adjacent
markers are handled — with the decimal pid string, and alters nothing else:
it coincides with the specification-side replace-all `specReplaceDD` for
every pid string that is non-empty and contains no `$` (decimal pid strings
always qualify). -/
theorem C4_expansion (pid line : List Char) (hnd : noDollar pid) (hne : pid ≠ []) :
    shell_read_line_expand pid line = specReplaceDD pid line := by
  have h := expandLoop_spec pid hnd hne line.length line [] (countDD_le_length line)
  simpa using h

/-- Witness for C4: the spec's own example, `echo $$-$$` with pid 1234. -/
theorem C4_expansion_witness :
    noDollar ("1234".toList) ∧ "1234".toList ≠ [] ∧
    shell_read_line_expand ("1234".toList) ("echo $$-$$".toList) =
      specReplaceDD ("1234".toList) ("echo $$-$$".toList) ∧
    shell_read_line_expand ("1234".toList) ("echo $$-$$".toList) =
      "echo 1234-1234".toList :=
  ⟨show ∀ c ∈ "1234".toList, c ≠ '$' from by decide, by decide,
   C4_expansion ("1234".toList) ("echo $$-$$".toList)
     (show ∀ c ∈ "1234".toList, c ≠ '$' from by decide) (by decide),
   by decide⟩
